import Mathlib

/-!
Shallow embedding of flamelens `src/ui.rs` (the flame-graph layout
`FlamelensWidget::render_stacks`) and `src/py_spy.rs` (the sampler bridge
`record_samples` / `run`), together with theorems settling the
specification's claims about them.

Conventions used throughout:
* `u64`/`usize` counts are `Nat`; the `f64` horizontal budgets of the
  layout are exact rationals `ℚ` (the spec states the layout arithmetic
  over real numbers); the Rust `as u16` cast of a nonnegative budget is
  `Nat.floor` (the cast truncates toward zero and maps negative values to
  zero; in every call the budget is bounded by the `u16` viewport width,
  so the cast's 65535 saturation never engages).
* Wall-clock `Instant`s and `Duration`s are `Nat` nanoseconds;
  `Duration::as_millis` is truncating division by `10^6` and `Instant`
  subtraction is truncated `Nat` subtraction, matching a monotone clock.
* Writes to the shared `Arc<Mutex<...>>` cells (`SamplerState` and the
  output cell) are modelled as an ordered list of `Event`s emitted by the
  loop, in program order.
-/

namespace PySpy

/-- Rust `SamplerStatus` (`py_spy.rs:37-43`). -/
inductive SamplerStatus : Type where
  | Running
  | Error (msg : String)
  | Done
  deriving DecidableEq, Repr

/-- Rust `py_spy::Frame` at this boundary (external crate; §6 of the spec lists
its fields `{name, file, short_file, line, is_entry}`). The `module` and
`locals` fields, never read by this repository, are omitted. -/
structure PFrame where
  name : String
  filename : String
  short_filename : Option String
  line : Nat
  is_entry : Bool
  deriving DecidableEq, Repr

/-- Process-ancestry metadata of a trace (external `py_spy` type): its own
frame rendering (`to_frame()` precomputed, since `to_frame` lives outside
this repository) and the parent link to walk. -/
inductive ProcessInfo : Type where
  | mk (frame : PFrame) (parent : Option ProcessInfo)

/-- The frame of a `ProcessInfo`. -/
def ProcessInfo.frame : ProcessInfo → PFrame
  | .mk f _ => f

/-- The parent link of a `ProcessInfo`. -/
def ProcessInfo.parent : ProcessInfo → Option ProcessInfo
  | .mk _ p => p

/-- One sampled thread trace (external `py_spy::StackTrace` at this
boundary): active flag, interpreter-lock flag, the rendered thread id
(`format_threadid()` precomputed, being external), the optional thread
name, the frame stack and optional process-ancestry metadata. -/
structure PTrace where
  active : Bool
  owns_gil : Bool
  threadid : String
  thread_name : Option String
  frames : List PFrame
  process_info : Option ProcessInfo

/-- Rust `py_spy::config::RecordDuration` at this boundary. -/
inductive RecordDuration : Type where
  | unlimited
  | seconds (sec : Nat)
  deriving DecidableEq, Repr

/-- The fields of `py_spy::Config` read by `run` (§6 of the spec). -/
structure Config where
  duration : RecordDuration
  sampling_rate : Nat
  include_idle : Bool
  gil_only : Bool
  include_thread_ids : Bool
  show_line_numbers : Bool

/-- One batch yielded by the external sampler iterator: the optional
scheduling delay (`sample.late`, nanoseconds), the thread traces, and the
wall-clock instants the loop body observes in this iteration (`nowLate`
at the late check, `nowDump` at the publication check). -/
structure Sample where
  late : Option Nat
  nowLate : Nat
  traces : List PTrace
  nowDump : Nat

/-- A write to the shared state performed by the loop: a `SamplerState`
status/late/duration update, or an installation of a snapshot (the
aggregated output at that point) into the shared output cell, tagged with
the instant at which it happens. -/
inductive Event : Type where
  | setStatus (status : SamplerStatus)
  | setLate (delay : Nat)
  | unsetLate
  | setDuration (duration : Nat)
  | publish (data : List (List PFrame)) (time : Nat)

/-- Modelled from the spec: the Aggregator (`py_spy_flamegraph::Flamegraph`,
a file of this repository outside the given sources). §4.1 specifies
`insert_trace` merging each fed trace into the tree; for the claims here
only the sequence of fed (extended) frame lists matters, so the aggregate
is that sequence and `increment` appends to it. Its `Result` error path is
not modelled: in this embedding `run`'s only failure is the initial
attach. -/
def increment (agg : List (List PFrame)) (frames : List PFrame) : List (List PFrame) :=
  agg ++ [frames]

/-- The while-loop of `run` walking `process_info.parent` links
(`py_spy.rs:170-176`): one frame per ancestor, in walk order. -/
def ancestorsOf : Option ProcessInfo → List PFrame
  | none => []
  | some (ProcessInfo.mk f pa) => f :: ancestorsOf pa

/-- The synthetic thread label frame pushed by `run` when
`include_thread_ids` is set (`py_spy.rs:150-166`). -/
def threadLabelFrame (trace : PTrace) : PFrame :=
  let threadid := trace.threadid
  let thread_fmt :=
    match trace.thread_name with
    | some thread_name => "thread (" ++ threadid ++ "): " ++ thread_name
    | none => "thread (" ++ threadid ++ ")"
  ⟨thread_fmt, "", none, 0, true⟩

/-- The frame extension performed on a kept trace before aggregation
(`py_spy.rs:150-177`): optionally push the thread label frame, then, if
process-ancestry metadata is present, push the process's own frame and
walk the parent links pushing one frame per ancestor. -/
def extendTrace (config : Config) (trace : PTrace) : List PFrame :=
  let frames := trace.frames
  let frames :=
    if config.include_thread_ids then frames ++ [threadLabelFrame trace] else frames
  match trace.process_info with
  | some process_info => frames ++ process_info.frame :: ancestorsOf process_info.parent
  | none => frames

/-- The per-trace loop of `run` (`py_spy.rs:141-181`): skip non-active
threads unless `include_idle`, skip threads not owning the GIL when
`gil_only`, extend the surviving traces and feed them to the
aggregator. -/
def processTraces (config : Config) : List PTrace → List (List PFrame) → List (List PFrame)
  | [], agg => agg
  | trace :: rest, agg =>
    if !(config.include_idle || trace.active) then
      processTraces config rest agg
    else if config.gil_only && !trace.owns_gil then
      processTraces config rest agg
    else
      processTraces config rest (increment agg (extendTrace config trace))

/-- The late-sample handling at the top of each loop iteration
(`py_spy.rs:120-132`): given `sample.late`, the current instant and
`last_late_message`, return the updated `last_late_message` and the
shared-state writes performed. -/
def handleLate (late : Option Nat) (now last_late_message : Nat) : Nat × List Event :=
  match late with
  | some delay =>
    if 1000000000 < delay then
      if 1000000000 < now - last_late_message then
        (now, [Event.setLate delay])
      else
        (last_late_message, [])
    else
      (last_late_message, [Event.unsetLate])
  | none => (last_late_message, [Event.unsetLate])

/-- Rust `max_intervals` (`py_spy.rs:107-110`). -/
def maxIntervals (config : Config) : Option Nat :=
  match config.duration with
  | RecordDuration.unlimited => none
  | RecordDuration.seconds sec => some (sec * config.sampling_rate)

/-- Rust `should_dump` (`py_spy.rs:189-195`): publish when no snapshot was ever
installed, or when at least 250 whole milliseconds elapsed since the last
installation. -/
def shouldDump (last_data_dump : Option Nat) (now : Nat) : Bool :=
  match last_data_dump with
  | some last => 250 ≤ (now - last) / 1000000
  | none => true

/-- The mutable state of `run`'s loop: the locals `last_late_message`,
`last_data_dump`, `intervals`, the aggregator `output`, and the ordered
list of shared-state writes performed so far. -/
structure RunState where
  last_late_message : Nat
  last_data_dump : Option Nat
  intervals : Nat
  agg : List (List PFrame)
  events : List Event

/-- One iteration of the `for mut sample in sampler` loop
(`py_spy.rs:119-208`), in program order: late handling, the interval
counter and `break` check, the per-trace loop, the publication check.
Returns the state after the iteration and whether the loop `break`s. -/
def stepSample (config : Config) (t0 : Nat) (st : RunState) (sample : Sample) :
    RunState × Bool :=
  let lateRes := handleLate sample.late sample.nowLate st.last_late_message
  let st1 : RunState :=
    { st with last_late_message := lateRes.1, events := st.events ++ lateRes.2 }
  let st2 : RunState := { st1 with intervals := st1.intervals + 1 }
  let brk :=
    match maxIntervals config with
    | some m => decide (m ≤ st2.intervals)
    | none => false
  if brk then (st2, true)
  else
    let st3 : RunState := { st2 with agg := processTraces config sample.traces st2.agg }
    if shouldDump st3.last_data_dump sample.nowDump then
      ({ st3 with
          last_data_dump := some sample.nowDump,
          events := st3.events
            ++ [Event.publish st3.agg sample.nowDump,
                Event.setDuration (sample.nowDump - t0)] }, false)
    else (st3, false)

/-- The sampler loop of `run`, folding `stepSample` over the batches the
external sampler yields and stopping at a `break`. -/
def runLoop (config : Config) (t0 : Nat) : List Sample → RunState → RunState
  | [], st => st
  | sample :: rest, st =>
    let r := stepSample config t0 st sample
    if r.2 then r.1 else runLoop config t0 rest r.1

/-- The loop locals at entry to the loop: `last_late_message` is the
instant taken just before the loop, no snapshot installed yet, zero
intervals, empty aggregate, no writes yet. -/
def initState (t0 : Nat) : RunState :=
  ⟨t0, none, 0, [], []⟩

/-- Rust `run` (`py_spy.rs:96-211`): `attach` is the outcome of
`sampler::Sampler::new` (`none` = attached, `some msg` = failure, in which
case `?` returns the error before the loop runs); `t0` is the instant of
`start_tic` and of the initial `last_late_message`. Returns the final loop
state (its `events` are the shared-state writes) and `run`'s result. -/
def run (config : Config) (attach : Option String) (samples : List Sample) (t0 : Nat) :
    RunState × Except String Unit :=
  match attach with
  | some msg => (initState t0, Except.error msg)
  | none => (runLoop config t0 samples (initState t0), Except.ok ())

/-- The terminal status `record_samples` installs from `run`'s result
(`py_spy.rs:83-93`): `Done` on success, `Error` with the diagnostic on
failure. -/
def terminalStatus : Except String Unit → SamplerStatus
  | Except.ok _ => SamplerStatus.Done
  | Except.error e => SamplerStatus.Error e

/-- Rust `record_samples` (`py_spy.rs:75-94`): set `Running`, run the loop,
then set exactly one terminal status. Returns the full ordered list of
shared-state writes. -/
def record_samples (config : Config) (attach : Option String) (samples : List Sample)
    (t0 : Nat) : List Event :=
  let r := run config attach samples t0
  Event.setStatus SamplerStatus.Running :: r.1.events
    ++ [Event.setStatus (terminalStatus r.2)]

/-- The sequence of statuses installed by a list of writes. -/
def statusEvents (events : List Event) : List SamplerStatus :=
  events.filterMap fun e =>
    match e with
    | Event.setStatus s => some s
    | _ => none

/-- The sequence of late-warning publications in a list of writes. -/
def setLates (events : List Event) : List Nat :=
  events.filterMap fun e =>
    match e with
    | Event.setLate d => some d
    | _ => none

/-- The instants of the snapshot installations in a list of writes. -/
def publishTimes (events : List Event) : List Nat :=
  events.filterMap fun e =>
    match e with
    | Event.publish _ t => some t
    | _ => none

/-- The content of the shared output cell after a list of writes: each
`publish` replaces the previous value (`Option::replace`,
`py_spy.rs:202`). -/
def cellAfter (events : List Event) : Option (List (List PFrame)) :=
  events.foldl
    (fun cell e =>
      match e with
      | Event.publish data _ => some data
      | _ => cell)
    none

end PySpy

namespace Ui

/-- The `ZoomState` handed to `render_stacks` (`ui.rs:38-41`, built in
`render_flamegraph` from the zoom root's id and its ancestor ids). -/
structure ZoomState where
  zoom_stack : Nat
  ancestors : List Nat
  deriving DecidableEq, Repr

/-- Modelled from the spec: §3 StackNode (`flame.rs` is a file of this
repository outside the given sources). Only the fields `render_stacks`
reads are carried: id, level, total count and the ordered children. The
arena lookup `get_stack(child_id).unwrap()` is the identity on this tree
view: each child entry is the child node itself. The `hit` flag, read only
for styling, is omitted. -/
inductive StackInfo : Type where
  | node (id : Nat) (level : Nat) (total_count : Nat) (children : List StackInfo)

/-- The id of a stack node. -/
def StackInfo.id : StackInfo → Nat
  | .node i _ _ _ => i

/-- The depth of a stack node. -/
def StackInfo.level : StackInfo → Nat
  | .node _ l _ _ => l

/-- The total sample count of a stack node. -/
def StackInfo.total_count : StackInfo → Nat
  | .node _ _ t _ => t

/-- The ordered children of a stack node. -/
def StackInfo.children : StackInfo → List StackInfo
  | .node _ _ _ cs => cs

/-- The predicate of the `stack.children.iter().position(...)` search in
`render_stacks` (`ui.rs:274-284`): a child id lies on the active zoom path
when it equals the zoom root or is one of the zoom root's ancestors. -/
def onZoomPath (zoom_state : Option ZoomState) (child_id : Nat) : Bool :=
  match zoom_state with
  | some z => child_id == z.zoom_stack || z.ancestors.contains child_id
  | none => false

/-- Rust `zoomed_child` (`ui.rs:274-284`): the id of the first child on the
active zoom path, if any. -/
def zoomedChild (zoom_state : Option ZoomState) (children : List StackInfo) : Option Nat :=
  (children.find? fun c => onZoomPath zoom_state c.id).map StackInfo.id

/-- Rust `child_x_budget` (`ui.rs:289-298`): when a zoomed child exists it takes
the parent's entire budget and every other child gets `0.0`; otherwise the
parent's budget is scaled by `total(child) / total(parent)`. -/
def childXBudget (zoomed : Option Nat) (x_budget : ℚ) (parent_total : Nat)
    (child : StackInfo) : ℚ :=
  match zoomed with
  | some zoomed_child_id => if child.id = zoomed_child_id then x_budget else 0
  | none => x_budget * ((child.total_count : ℚ) / (parent_total : ℚ))

/-- One row written to the buffer by `buf.set_line(x, y, &line,
effective_x_budget)` (`ui.rs:264`): position, clipped width, and the id of
the stack it renders. Styling is not modelled. -/
structure Row where
  x : Nat
  y : Nat
  width : Nat
  stack_id : Nat
  deriving DecidableEq, Repr

mutual

/-- Rust `FlamelensWidget::render_stacks` (`ui.rs:243-313`): returns the rows
written to the buffer, in write order, together with the
`has_more_rows_to_render` flag the call returns. -/
def renderStacks (level_offset : Nat) (zoom_state : Option ZoomState)
    (stack : StackInfo) (x y : Nat) (x_budget : ℚ) (y_max : Nat) :
    List Row × Bool :=
  match stack with
  | .node id level total_count children =>
    let after_level_offset := level_offset ≤ level
    let effective_x_budget := ⌊x_budget⌋₊
    if y < y_max ∧ 0 < effective_x_budget then
      let own_row :=
        if after_level_offset then [Row.mk x y effective_x_budget id] else []
      let rec_result :=
        renderChildren level_offset zoom_state x_budget total_count
          (zoomedChild zoom_state children) children x 0
          (y + if after_level_offset then 1 else 0) y_max
      (own_row ++ rec_result.1, rec_result.2)
    else
      ([], decide (y_max ≤ y ∧ 0 < effective_x_budget))

/-- The child loop of `render_stacks` (`ui.rs:286-310`): `x_off` is the
accumulated `x_offset`, each child's budget comes from `childXBudget`, and
the flag is the running `|=` over the children's results. -/
def renderChildren (level_offset : Nat) (zoom_state : Option ZoomState)
    (x_budget : ℚ) (parent_total : Nat) (zoomed : Option Nat)
    (children : List StackInfo) (x x_off y y_max : Nat) :
    List Row × Bool :=
  match children with
  | [] => ([], false)
  | child :: rest =>
    let b := childXBudget zoomed x_budget parent_total child
    let r := renderStacks level_offset zoom_state child (x + x_off) y b y_max
    let r' :=
      renderChildren level_offset zoom_state x_budget parent_total zoomed rest
        x (x_off + ⌊b⌋₊) y y_max
    (r.1 ++ r'.1, r.2 || r'.2)

end

mutual

/-- The specification's reading of the continuation flag: some node
reached by the traversal is pruned by the visibility gate with its row at
or below the bottom edge while its floored width is positive. -/
def hasPrunedBelow (level_offset : Nat) (zoom_state : Option ZoomState)
    (stack : StackInfo) (x y : Nat) (x_budget : ℚ) (y_max : Nat) : Prop :=
  match stack with
  | .node _ level total_count children =>
    if y < y_max ∧ 0 < ⌊x_budget⌋₊ then
      hasPrunedBelowChildren level_offset zoom_state x_budget total_count
        (zoomedChild zoom_state children) children x 0
        (y + if level_offset ≤ level then 1 else 0) y_max
    else
      y_max ≤ y ∧ 0 < ⌊x_budget⌋₊

/-- Companion of `hasPrunedBelow` over a child list: some child subtree,
laid out at its own offset and budget, contains such a pruned node. -/
def hasPrunedBelowChildren (level_offset : Nat) (zoom_state : Option ZoomState)
    (x_budget : ℚ) (parent_total : Nat) (zoomed : Option Nat)
    (children : List StackInfo) (x x_off y y_max : Nat) : Prop :=
  match children with
  | [] => False
  | child :: rest =>
    hasPrunedBelow level_offset zoom_state child (x + x_off) y
      (childXBudget zoomed x_budget parent_total child) y_max ∨
    hasPrunedBelowChildren level_offset zoom_state x_budget parent_total zoomed rest
      x (x_off + ⌊childXBudget zoomed x_budget parent_total child⌋₊) y y_max

end

end Ui


namespace PySpy

theorem statusEvents_append (a b : List Event) :
    statusEvents (a ++ b) = statusEvents a ++ statusEvents b := by
  simp [statusEvents, List.filterMap_append]

theorem statusEvents_handleLate (late : Option Nat) (now last : Nat) :
    statusEvents (handleLate late now last).2 = [] := by
  cases late with
  | none => rfl
  | some delay =>
    by_cases h1 : 1000000000 < delay
    · by_cases h2 : 1000000000 < now - last
      · simp [handleLate, h1, h2, statusEvents]
      · simp [handleLate, h1, h2, statusEvents]
    · simp [handleLate, h1, statusEvents]

theorem statusEvents_stepSample (config : Config) (t0 : Nat) (st : RunState)
    (sample : Sample) :
    statusEvents (stepSample config t0 st sample).1.events = statusEvents st.events := by
  cases hm : maxIntervals config with
  | some m =>
    by_cases hb : m ≤ st.intervals + 1
    · simp [stepSample, hm, hb, statusEvents_append, statusEvents_handleLate]
    · by_cases hd : shouldDump st.last_data_dump sample.nowDump = true
      · simp [stepSample, hm, hb, hd, statusEvents_append, statusEvents_handleLate,
          statusEvents]
        exact List.filterMap_eq_nil_iff.mp
          (statusEvents_handleLate sample.late sample.nowLate st.last_late_message)
      · simp [stepSample, hm, hb, hd, statusEvents_append, statusEvents_handleLate]
  | none =>
    by_cases hd : shouldDump st.last_data_dump sample.nowDump = true
    · simp [stepSample, hm, hd, statusEvents_append, statusEvents_handleLate,
        statusEvents]
      exact List.filterMap_eq_nil_iff.mp
        (statusEvents_handleLate sample.late sample.nowLate st.last_late_message)
    · simp [stepSample, hm, hd, statusEvents_append, statusEvents_handleLate]

theorem statusEvents_runLoop (config : Config) (t0 : Nat) (samples : List Sample)
    (st : RunState) :
    statusEvents (runLoop config t0 samples st).events = statusEvents st.events := by
  induction samples generalizing st with
  | nil => rfl
  | cons sample rest ih =>
    simp only [runLoop]
    cases hb : (stepSample config t0 st sample).2 <;>
      simp [hb, ih, statusEvents_stepSample]

theorem statusEvents_run (config : Config) (attach : Option String)
    (samples : List Sample) (t0 : Nat) :
    statusEvents (run config attach samples t0).1.events = [] := by
  unfold run
  cases attach with
  | none => rw [statusEvents_runLoop]; rfl
  | some msg => rfl

/-- C2: `record_samples` installs `Running` first, then after the loop
exactly one terminal status — `Done` on success, `Error` with the
diagnostic on failure — and never `Running` again; the terminal status is
the last shared-state write, so no snapshot is installed after it. -/
theorem claim_C2_status_machine (config : Config) (attach : Option String)
    (samples : List Sample) (t0 : Nat) :
    statusEvents (record_samples config attach samples t0)
        = [SamplerStatus.Running, terminalStatus (run config attach samples t0).2]
      ∧ terminalStatus (run config attach samples t0).2 ≠ SamplerStatus.Running
      ∧ (record_samples config attach samples t0).getLast?
          = some (Event.setStatus (terminalStatus (run config attach samples t0).2))
      ∧ terminalStatus (Except.ok ()) = SamplerStatus.Done
      ∧ (∀ msg, terminalStatus (Except.error msg) = SamplerStatus.Error msg) := by
  refine ⟨?_, ?_, ?_, rfl, fun msg => rfl⟩
  · show statusEvents ((Event.setStatus SamplerStatus.Running
        :: (run config attach samples t0).1.events)
        ++ [Event.setStatus (terminalStatus (run config attach samples t0).2)]) = _
    rw [statusEvents_append]
    have h2 : statusEvents (Event.setStatus SamplerStatus.Running
        :: (run config attach samples t0).1.events)
        = SamplerStatus.Running :: statusEvents (run config attach samples t0).1.events :=
      rfl
    rw [h2, statusEvents_run]
    rfl
  · cases h : (run config attach samples t0).2 <;> simp [terminalStatus]
  · show ((Event.setStatus SamplerStatus.Running
        :: (run config attach samples t0).1.events)
        ++ [Event.setStatus (terminalStatus (run config attach samples t0).2)]).getLast? = _
    exact List.getLast?_concat _

/-- C5: in each iteration a trace is fed to the aggregator exactly when
(`include_idle` is set or the thread is active) and (`gil_only` is unset
or the thread owns the GIL); skipped traces contribute nothing. -/
theorem claim_C5_trace_filter (config : Config) (ts : List PTrace)
    (agg : List (List PFrame)) :
    processTraces config ts agg
      = agg ++ ((ts.filter fun tr =>
          (config.include_idle || tr.active) && (!config.gil_only || tr.owns_gil)).map
            (extendTrace config)) := by
  induction ts generalizing agg with
  | nil => simp [processTraces]
  | cons tr rest ih =>
    cases hA : config.include_idle || tr.active <;>
      cases cg : config.gil_only <;>
        cases hog : tr.owns_gil <;>
          simp [processTraces, List.filter_cons, hA, cg, hog, ih, increment]

/-- C9: a trace passing the filters is fed to the aggregator with its
frame list extended by (when `include_thread_ids` is set) one synthetic
thread label frame — `thread (id): name` when a thread name exists,
`thread (id)` otherwise — followed by (when process-ancestry metadata is
present) the process's frame and one frame per ancestor along the parent
links. -/
theorem claim_C9_extended_frames (config : Config) (tr : PTrace) (rest : List PTrace)
    (agg : List (List PFrame))
    (hkeep : ((config.include_idle || tr.active)
        && (!config.gil_only || tr.owns_gil)) = true) :
    processTraces config (tr :: rest) agg
        = processTraces config rest (agg ++ [extendTrace config tr])
      ∧ extendTrace config tr
          = tr.frames
            ++ (if config.include_thread_ids then [threadLabelFrame tr] else [])
            ++ (match tr.process_info with
                | some pi => pi.frame :: ancestorsOf pi.parent
                | none => [])
      ∧ (threadLabelFrame tr).name
          = (match tr.thread_name with
             | some nm => "thread (" ++ tr.threadid ++ "): " ++ nm
             | none => "thread (" ++ tr.threadid ++ ")") := by
  rcases Bool.and_eq_true_iff.mp hkeep with ⟨hA, hO⟩
  have hG : (config.gil_only && !tr.owns_gil) = false := by
    cases cg : config.gil_only <;> cases hog : tr.owns_gil <;> simp_all
  refine ⟨?_, ?_, ?_⟩
  · simp [processTraces, hA, hG, increment]
  · unfold extendTrace
    cases hP : tr.process_info with
    | none => cases hI : config.include_thread_ids <;> simp
    | some pi =>
      cases pi with
      | mk f pa =>
        cases hI : config.include_thread_ids <;>
          simp [ProcessInfo.frame, ProcessInfo.parent]
  · unfold threadLabelFrame
    cases tr.thread_name <;> rfl

/-- Witness for C9 at a concrete configuration and trace. -/
theorem claim_C9_witness :
    ((((⟨RecordDuration.unlimited, 0, false, false, true, false⟩ : Config).include_idle
        || (⟨true, true, "12", some "main", [], none⟩ : PTrace).active)
      && (!(⟨RecordDuration.unlimited, 0, false, false, true, false⟩ : Config).gil_only
        || (⟨true, true, "12", some "main", [], none⟩ : PTrace).owns_gil)) = true)
    ∧ extendTrace ⟨RecordDuration.unlimited, 0, false, false, true, false⟩
          ⟨true, true, "12", some "main", [], none⟩
        = ([] : List PFrame)
          ++ (if (⟨RecordDuration.unlimited, 0, false, false, true, false⟩
                : Config).include_thread_ids
              then [threadLabelFrame ⟨true, true, "12", some "main", [], none⟩] else [])
          ++ [] :=
  ⟨rfl,
    (claim_C9_extended_frames ⟨RecordDuration.unlimited, 0, false, false, true, false⟩
      ⟨true, true, "12", some "main", [], none⟩ [] [] rfl).2.1⟩

end PySpy

namespace PySpy

theorem setLates_append (a b : List Event) :
    setLates (a ++ b) = setLates a ++ setLates b := by
  simp [setLates, List.filterMap_append]

theorem stepSample_unlimited (config : Config) (hm : maxIntervals config = none)
    (t0 : Nat) (st : RunState) (sample : Sample) :
    (stepSample config t0 st sample).2 = false
    ∧ (stepSample config t0 st sample).1.last_late_message
        = (handleLate sample.late sample.nowLate st.last_late_message).1
    ∧ setLates (stepSample config t0 st sample).1.events
        = setLates st.events
          ++ setLates (handleLate sample.late sample.nowLate st.last_late_message).2 := by
  by_cases hd : shouldDump st.last_data_dump sample.nowDump = true <;>
    simp [stepSample, hm, hd, setLates_append, setLates]

/-- Counterexample to C3 as stated: with the loop starting at instant 0,
a first batch at instant 0.5 s carrying delay 1.5 s > 1 s publishes no
late-warning (the code debounces against `last_late_message`, which is
initialized to the loop start, and requires a strictly greater than 1 s
gap), although no late-warning was ever published before — so the claim's
"published unless a late-warning was published less than 1 second
earlier" predicts a publication here. -/
theorem claim_C3_counterexample :
    1000000000 < 1500000000
    ∧ setLates ((run ⟨RecordDuration.unlimited, 100, false, false, false, false⟩ none
        [⟨some 1500000000, 500000000, [], 600000000⟩] 0).1.events) = [] :=
  ⟨by decide, rfl⟩

/-- C3 amended: in each iteration, if the batch's delay exceeds 1 s, a
late-warning with that delay is published exactly when more than 1 s of
wall-clock time passed since the last published warning — or since the
loop start, if none was published yet — and otherwise nothing is written
(not even a clear); if the delay is at most 1 s or absent the warning is
cleared; two late events with delay above 1 s inside the same 1-second
window, the first itself more than 1 s after loop start, publish exactly
one warning. -/
theorem claim_C3_amended_debounce (delay now last : Nat) (config : Config)
    (t0 n1 n2 d1 d2 m1 m2 : Nat) (tr1 tr2 : List PTrace) :
    (1000000000 < delay → 1000000000 < now - last →
      handleLate (some delay) now last = (now, [Event.setLate delay]))
    ∧ (1000000000 < delay → ¬1000000000 < now - last →
      handleLate (some delay) now last = (last, []))
    ∧ (delay ≤ 1000000000 →
      handleLate (some delay) now last = (last, [Event.unsetLate]))
    ∧ handleLate none now last = (last, [Event.unsetLate])
    ∧ (config.duration = RecordDuration.unlimited →
      1000000000 < d1 → 1000000000 < d2 →
      t0 + 1000000000 < n1 → n2 ≤ n1 + 1000000000 →
      setLates ((run config none
          [⟨some d1, n1, tr1, m1⟩, ⟨some d2, n2, tr2, m2⟩] t0).1.events) = [d1]) := by
  refine ⟨?_, ?_, ?_, rfl, ?_⟩
  · intro h1 h2
    simp [handleLate, h1, h2]
  · intro h1 h2
    simp [handleLate, h1, h2]
  · intro h1
    have h2 : ¬1000000000 < delay := by omega
    simp [handleLate, h2]
  · intro hdur hd1 hd2 hn1 hn2
    have hm : maxIntervals config = none := by
      unfold maxIntervals
      rw [hdur]
    obtain ⟨hb1, hl1, he1⟩ :=
      stepSample_unlimited config hm t0 (initState t0) ⟨some d1, n1, tr1, m1⟩
    obtain ⟨hb2, hl2, he2⟩ :=
      stepSample_unlimited config hm t0
        (stepSample config t0 (initState t0) ⟨some d1, n1, tr1, m1⟩).1
        ⟨some d2, n2, tr2, m2⟩
    have hrun : (run config none
        [(⟨some d1, n1, tr1, m1⟩ : Sample), ⟨some d2, n2, tr2, m2⟩] t0).1
        = (stepSample config t0
            (stepSample config t0 (initState t0) ⟨some d1, n1, tr1, m1⟩).1
            ⟨some d2, n2, tr2, m2⟩).1 := by
      show runLoop config t0 _ (initState t0) = _
      simp [runLoop, hb1, hb2]
    have hH1 : handleLate (some d1) n1 t0 = (n1, [Event.setLate d1]) := by
      have hgap : 1000000000 < n1 - t0 := by omega
      simp [handleLate, hd1, hgap]
    have hH2 : handleLate (some d2) n2 n1 = (n1, []) := by
      have hgap : ¬1000000000 < n2 - n1 := by omega
      simp [handleLate, hd2, hgap]
    rw [hrun, he2, he1]
    have hinit : (initState t0).last_late_message = t0 := rfl
    rw [hinit, hH1] at hl1 ⊢
    rw [hl1, hH2]
    rfl

/-- Witness for the amended C3: a warning published after a 3 s gap with
delay 2 s, and the two-events-in-one-window scenario publishing exactly
one warning. -/
theorem claim_C3_amended_witness :
    handleLate (some 2000000000) 3000000000 0 = (3000000000, [Event.setLate 2000000000])
    ∧ setLates ((run ⟨RecordDuration.unlimited, 100, false, false, false, false⟩ none
        [⟨some 1500000000, 1500000001, [], 1600000000⟩,
         ⟨some 1500000000, 2000000000, [], 2100000000⟩] 0).1.events)
        = [1500000000] :=
  ⟨(claim_C3_amended_debounce 2000000000 3000000000 0
      ⟨RecordDuration.unlimited, 100, false, false, false, false⟩
      0 1500000001 2000000000 1500000000 1500000000 1600000000 2100000000 [] []).1
      (by decide) (by decide),
   (claim_C3_amended_debounce 2000000000 3000000000 0
      ⟨RecordDuration.unlimited, 100, false, false, false, false⟩
      0 1500000001 2000000000 1500000000 1500000000 1600000000 2100000000 [] []).2.2.2.2
      rfl (by decide) (by decide) (by decide) (by decide)⟩

theorem publishTimes_append (a b : List Event) :
    publishTimes (a ++ b) = publishTimes a ++ publishTimes b := by
  simp [publishTimes, List.filterMap_append]

theorem publishTimes_handleLate (late : Option Nat) (now last : Nat) :
    publishTimes (handleLate late now last).2 = [] := by
  cases late with
  | none => rfl
  | some delay =>
    by_cases h1 : 1000000000 < delay
    · by_cases h2 : 1000000000 < now - last
      · simp [handleLate, h1, h2, publishTimes]
      · simp [handleLate, h1, h2, publishTimes]
    · simp [handleLate, h1, publishTimes]

theorem publishTimes_pair (data : List (List PFrame)) (t d : Nat) :
    publishTimes [Event.publish data t, Event.setDuration d] = [t] := rfl

theorem stepSample_publish_inv (config : Config) (t0 : Nat) (st : RunState)
    (sample : Sample)
    (hlast : st.last_data_dump = (publishTimes st.events).getLast?)
    (hchain : List.Chain' (fun a b => a + 250000000 ≤ b) (publishTimes st.events)) :
    (stepSample config t0 st sample).1.last_data_dump
        = (publishTimes (stepSample config t0 st sample).1.events).getLast?
    ∧ List.Chain' (fun a b => a + 250000000 ≤ b)
        (publishTimes (stepSample config t0 st sample).1.events) := by
  have hlate := publishTimes_handleLate sample.late sample.nowLate st.last_late_message
  have hdump : ∀ _ : shouldDump st.last_data_dump sample.nowDump = true,
      ∀ a ∈ (publishTimes st.events).getLast?, a + 250000000 ≤ sample.nowDump := by
    intro hd a ha
    rw [← hlast] at ha
    cases hdm : st.last_data_dump with
    | none => rw [hdm] at ha; cases ha
    | some lastT =>
      rw [hdm] at ha
      have haeq : lastT = a := by simpa using ha
      rw [hdm] at hd
      have h250 : 250 ≤ (sample.nowDump - lastT) / 1000000 := by
        simpa [shouldDump] using hd
      have hmul := (Nat.le_div_iff_mul_le (by norm_num : 0 < 1000000)).mp h250
      omega
  have main : ∀ hpub : publishTimes (stepSample config t0 st sample).1.events
        = publishTimes st.events,
      ∀ hld : (stepSample config t0 st sample).1.last_data_dump = st.last_data_dump,
      (stepSample config t0 st sample).1.last_data_dump
          = (publishTimes (stepSample config t0 st sample).1.events).getLast?
      ∧ List.Chain' (fun a b => a + 250000000 ≤ b)
          (publishTimes (stepSample config t0 st sample).1.events) := by
    intro hpub hld
    rw [hpub, hld]
    exact ⟨hlast, hchain⟩
  have mainPub : ∀ _ : shouldDump st.last_data_dump sample.nowDump = true,
      ∀ hpub : publishTimes (stepSample config t0 st sample).1.events
        = publishTimes st.events ++ [sample.nowDump],
      ∀ hld : (stepSample config t0 st sample).1.last_data_dump = some sample.nowDump,
      (stepSample config t0 st sample).1.last_data_dump
          = (publishTimes (stepSample config t0 st sample).1.events).getLast?
      ∧ List.Chain' (fun a b => a + 250000000 ≤ b)
          (publishTimes (stepSample config t0 st sample).1.events) := by
    intro hd hpub hld
    rw [hpub, hld]
    constructor
    · rw [List.getLast?_concat]
    · rw [List.chain'_append]
      refine ⟨hchain, List.chain'_singleton _, ?_⟩
      intro a ha b hb'
      simp only [List.head?_cons, Option.mem_def, Option.some.injEq] at hb'
      subst hb'
      exact hdump hd a ha
  by_cases hd : shouldDump st.last_data_dump sample.nowDump = true
  · cases hmx : maxIntervals config with
    | some m =>
      by_cases hb : m ≤ st.intervals + 1
      · refine main ?_ ?_
        · simp [stepSample, hmx, hb, publishTimes_append, hlate]
        · simp [stepSample, hmx, hb]
      · refine mainPub hd ?_ ?_
        · simp [stepSample, hmx, hb, hd, publishTimes_append, hlate, publishTimes_pair]
        · simp [stepSample, hmx, hb, hd]
    | none =>
      refine mainPub hd ?_ ?_
      · simp [stepSample, hmx, hd, publishTimes_append, hlate, publishTimes_pair]
      · simp [stepSample, hmx, hd]
  · cases hmx : maxIntervals config with
    | some m =>
      by_cases hb : m ≤ st.intervals + 1
      · refine main ?_ ?_
        · simp [stepSample, hmx, hb, publishTimes_append, hlate]
        · simp [stepSample, hmx, hb]
      · refine main ?_ ?_
        · simp [stepSample, hmx, hb, hd, publishTimes_append, hlate]
        · simp [stepSample, hmx, hb, hd]
    | none =>
      refine main ?_ ?_
      · simp [stepSample, hmx, hd, publishTimes_append, hlate]
      · simp [stepSample, hmx, hd]

theorem runLoop_publish_inv (config : Config) (t0 : Nat) (samples : List Sample)
    (st : RunState)
    (hlast : st.last_data_dump = (publishTimes st.events).getLast?)
    (hchain : List.Chain' (fun a b => a + 250000000 ≤ b) (publishTimes st.events)) :
    List.Chain' (fun a b => a + 250000000 ≤ b)
      (publishTimes (runLoop config t0 samples st).events) := by
  induction samples generalizing st with
  | nil => exact hchain
  | cons sample rest ih =>
    obtain ⟨h1, h2⟩ := stepSample_publish_inv config t0 st sample hlast hchain
    simp only [runLoop]
    cases hb : (stepSample config t0 st sample).2 with
    | true => simpa [hb] using h2
    | false =>
      simp only [hb, Bool.false_eq_true, if_false]
      exact ih _ h1 h2

/-- C4: successive snapshot installations in the shared output cell are at
least 250 ms of wall-clock time apart, and each installation replaces any
prior value of the cell. -/
theorem claim_C4_publish_rate (config : Config) (attach : Option String)
    (samples : List Sample) (t0 : Nat) :
    List.Chain' (fun a b => a + 250000000 ≤ b)
      (publishTimes (record_samples config attach samples t0))
    ∧ ∀ (events : List Event) (data : List (List PFrame)) (t : Nat),
        cellAfter (events ++ [Event.publish data t]) = some data := by
  constructor
  · have hrec : publishTimes (record_samples config attach samples t0)
        = publishTimes (run config attach samples t0).1.events := by
      show publishTimes ((Event.setStatus SamplerStatus.Running
          :: (run config attach samples t0).1.events)
          ++ [Event.setStatus (terminalStatus (run config attach samples t0).2)]) = _
      rw [publishTimes_append]
      have h1 : publishTimes (Event.setStatus SamplerStatus.Running
          :: (run config attach samples t0).1.events)
          = publishTimes (run config attach samples t0).1.events := rfl
      rw [h1]
      simp [publishTimes]
    rw [hrec]
    cases attach with
    | some msg => exact List.chain'_nil
    | none =>
      exact runLoop_publish_inv config t0 samples (initState t0) rfl List.chain'_nil
  · intro events data t
    simp [cellAfter, List.foldl_append]

end PySpy

namespace PySpy

theorem runLoop_agg (config : Config) (m : Nat) (hm : maxIntervals config = some m)
    (t0 : Nat) (samples : List Sample) :
    ∀ st : RunState,
      (runLoop config t0 samples st).agg
        = (samples.take (m - 1 - st.intervals)).foldl
            (fun a s => processTraces config s.traces a) st.agg := by
  induction samples with
  | nil => intro st; simp [runLoop]
  | cons sample rest ih =>
    intro st
    by_cases hb : m ≤ st.intervals + 1
    · have htake : m - 1 - st.intervals = 0 := by omega
      have hstep : (stepSample config t0 st sample).2 = true
          ∧ (stepSample config t0 st sample).1.agg = st.agg := by
        simp [stepSample, hm, hb]
      simp [runLoop, hstep.1, hstep.2, htake]
    · have htake : m - 1 - st.intervals = (m - 1 - (st.intervals + 1)) + 1 := by omega
      have hstep : (stepSample config t0 st sample).2 = false
          ∧ (stepSample config t0 st sample).1.agg
              = processTraces config sample.traces st.agg
          ∧ (stepSample config t0 st sample).1.intervals = st.intervals + 1 := by
        by_cases hd : shouldDump st.last_data_dump sample.nowDump = true <;>
          simp [stepSample, hm, hb, hd]
      rw [htake]
      simp only [runLoop, hstep.1, Bool.false_eq_true, if_false, List.take_succ_cons,
        List.foldl_cons]
      rw [ih, hstep.2.1, hstep.2.2]

/-- C10: with a configured duration of `sec` seconds, `run` computes the
interval limit `sec * sampling_rate`, returns `Ok` (so the status becomes
`Done`), and the loop breaks before the traces of the iteration that
reaches the limit are processed: only the first `sec * sampling_rate - 1`
batches are aggregated. -/
theorem claim_C10_max_intervals (sec rate : Nat) (ii go iti sln : Bool)
    (samples : List Sample) (t0 : Nat) :
    maxIntervals ⟨RecordDuration.seconds sec, rate, ii, go, iti, sln⟩ = some (sec * rate)
    ∧ (run ⟨RecordDuration.seconds sec, rate, ii, go, iti, sln⟩ none samples t0).2
        = Except.ok ()
    ∧ (run ⟨RecordDuration.seconds sec, rate, ii, go, iti, sln⟩ none samples t0).1.agg
        = (samples.take (sec * rate - 1)).foldl
            (fun a s =>
              processTraces ⟨RecordDuration.seconds sec, rate, ii, go, iti, sln⟩
                s.traces a) []
    ∧ statusEvents (record_samples ⟨RecordDuration.seconds sec, rate, ii, go, iti, sln⟩
          none samples t0)
        = [SamplerStatus.Running, SamplerStatus.Done] := by
  refine ⟨rfl, rfl, ?_, ?_⟩
  · show (runLoop ⟨RecordDuration.seconds sec, rate, ii, go, iti, sln⟩ t0 samples
        (initState t0)).agg = _
    rw [runLoop_agg ⟨RecordDuration.seconds sec, rate, ii, go, iti, sln⟩ (sec * rate)
      rfl t0 samples (initState t0)]
    rfl
  · show statusEvents ((Event.setStatus SamplerStatus.Running
        :: (run ⟨RecordDuration.seconds sec, rate, ii, go, iti, sln⟩ none samples
            t0).1.events)
        ++ [Event.setStatus (terminalStatus
            (run ⟨RecordDuration.seconds sec, rate, ii, go, iti, sln⟩ none samples
              t0).2)]) = _
    rw [statusEvents_append]
    have h2 : statusEvents (Event.setStatus SamplerStatus.Running
        :: (run ⟨RecordDuration.seconds sec, rate, ii, go, iti, sln⟩ none samples
            t0).1.events)
        = SamplerStatus.Running :: statusEvents
            (run ⟨RecordDuration.seconds sec, rate, ii, go, iti, sln⟩ none samples
              t0).1.events := rfl
    rw [h2, statusEvents_run]
    rfl

end PySpy

namespace Ui

/-- C1: for a node with positive total count, when no child lies on the
active zoom path every child's budget is the parent's budget scaled by
`total(child) / total(parent)`; when a child lies on the zoom path (and it
is the only such child — in a tree the zoom root's ancestor chain meets a
sibling list at most once) that child receives the parent's entire budget
and every sibling's budget is exactly zero. -/
theorem claim_C1_budget_rule (zoom_state : Option ZoomState) (x_budget : ℚ)
    (parent_total : Nat) (children : List StackInfo) (c : StackInfo)
    (hmem : c ∈ children) (hpos : 0 < parent_total) :
    ((∀ c' ∈ children, onZoomPath zoom_state c'.id = false) →
      childXBudget (zoomedChild zoom_state children) x_budget parent_total c
        = x_budget * ((c.total_count : ℚ) / (parent_total : ℚ)))
    ∧ (onZoomPath zoom_state c.id = true →
      (∀ c' ∈ children, onZoomPath zoom_state c'.id = true → c'.id = c.id) →
      childXBudget (zoomedChild zoom_state children) x_budget parent_total c = x_budget
      ∧ ∀ c' ∈ children, c'.id ≠ c.id →
          childXBudget (zoomedChild zoom_state children) x_budget parent_total c' = 0) := by
  constructor
  · intro hall
    have hnone : zoomedChild zoom_state children = none := by
      unfold zoomedChild
      rw [List.find?_eq_none.mpr]
      · rfl
      · intro a ha
        rw [hall a ha]
        exact Bool.false_ne_true
    rw [hnone]
    rfl
  · intro hc huniq
    obtain ⟨c0, hf⟩ : ∃ c0, List.find? (fun c => onZoomPath zoom_state c.id) children
        = some c0 := by
      cases hf : List.find? (fun c => onZoomPath zoom_state c.id) children with
      | none =>
        exact absurd hc (by simpa using List.find?_eq_none.mp hf c hmem)
      | some c0 => exact ⟨c0, rfl⟩
    have hp : onZoomPath zoom_state c0.id = true := by
      simpa using List.find?_some hf
    have hm0 : c0 ∈ children := List.mem_of_find?_eq_some hf
    have hid : c0.id = c.id := huniq c0 hm0 hp
    have hz : zoomedChild zoom_state children = some c.id := by
      unfold zoomedChild
      rw [hf]
      simp [hid]
    rw [hz]
    constructor
    · show (if c.id = c.id then x_budget else 0) = x_budget
      rw [if_pos rfl]
    · intro c' _ hne
      show (if c'.id = c.id then x_budget else 0) = 0
      rw [if_neg hne]

/-- Witness for C1: a two-child node under zoom (the zoomed child takes
the full budget, the sibling gets zero) and a single-child node without
zoom (proportional budget). -/
theorem claim_C1_witness :
    (childXBudget (zoomedChild (some ⟨5, []⟩)
          [StackInfo.node 5 1 1 [], StackInfo.node 6 1 1 []]) 8 2
        (StackInfo.node 5 1 1 []) = 8
      ∧ ∀ c' ∈ [StackInfo.node 5 1 1 [], StackInfo.node 6 1 1 []],
          c'.id ≠ (StackInfo.node 5 1 1 []).id →
          childXBudget (zoomedChild (some ⟨5, []⟩)
            [StackInfo.node 5 1 1 [], StackInfo.node 6 1 1 []]) 8 2 c' = 0)
    ∧ childXBudget (zoomedChild none [StackInfo.node 7 1 1 []]) 8 2
        (StackInfo.node 7 1 1 [])
        = 8 * (((StackInfo.node 7 1 1 []).total_count : ℚ) / ((2 : Nat) : ℚ)) :=
  ⟨(claim_C1_budget_rule (some ⟨5, []⟩) 8 2
      [StackInfo.node 5 1 1 [], StackInfo.node 6 1 1 []] (StackInfo.node 5 1 1 [])
      (List.mem_cons_self _ _) (by norm_num)).2 (by decide) (by decide),
   (claim_C1_budget_rule none 8 2 [StackInfo.node 7 1 1 []] (StackInfo.node 7 1 1 [])
      (List.mem_cons_self _ _) (by norm_num)).1 (by decide)⟩

end Ui

namespace Ui

/-- C6: a call on a node writes the node's own row — at `(x, y)` with the
floored budget as width — exactly when its row is strictly above the
viewport bottom, its floored budget is positive, and its level is at
least `level_offset`; when only the level test fails the children are
still recursed into, with the row coordinate advancing only when the
level is at or past `level_offset`; when the visibility gate fails
nothing at all is emitted. -/
theorem claim_C6_emission_rule (level_offset : Nat) (zoom_state : Option ZoomState)
    (id level total_count : Nat) (children : List StackInfo)
    (x y : Nat) (x_budget : ℚ) (y_max : Nat) :
    (renderStacks level_offset zoom_state (StackInfo.node id level total_count children)
        x y x_budget y_max).1
      = if y < y_max ∧ 0 < ⌊x_budget⌋₊ then
          (if level_offset ≤ level then [Row.mk x y ⌊x_budget⌋₊ id] else [])
            ++ (renderChildren level_offset zoom_state x_budget total_count
                (zoomedChild zoom_state children) children x 0
                (y + if level_offset ≤ level then 1 else 0) y_max).1
        else [] := by
  rw [renderStacks]
  by_cases h : y < y_max ∧ 0 < ⌊x_budget⌋₊
  · rw [if_pos h, if_pos h]
  · rw [if_neg h, if_neg h]

end Ui

namespace Ui

theorem renderFlagAux : ∀ N : Nat,
    (∀ (level_offset : Nat) (zoom_state : Option ZoomState) (stack : StackInfo)
        (x y : Nat) (x_budget : ℚ) (y_max : Nat), sizeOf stack < N →
      ((renderStacks level_offset zoom_state stack x y x_budget y_max).2 = true
        ↔ hasPrunedBelow level_offset zoom_state stack x y x_budget y_max))
    ∧ (∀ (level_offset : Nat) (zoom_state : Option ZoomState) (x_budget : ℚ)
        (parent_total : Nat) (zoomed : Option Nat) (children : List StackInfo)
        (x x_off y y_max : Nat), sizeOf children < N →
      ((renderChildren level_offset zoom_state x_budget parent_total zoomed children
          x x_off y y_max).2 = true
        ↔ hasPrunedBelowChildren level_offset zoom_state x_budget parent_total zoomed
            children x x_off y y_max)) := by
  intro N
  induction N with
  | zero =>
    constructor
    · intro _ _ _ _ _ _ _ h
      exact absurd h (Nat.not_lt_zero _)
    · intro _ _ _ _ _ _ _ _ _ _ h
      exact absurd h (Nat.not_lt_zero _)
  | succ n ih =>
    constructor
    · intro lo zs stack x y xB yMax hsz
      cases stack with
      | node id level total_count children =>
        have hlt : sizeOf children < n := by
          have hspec : sizeOf (StackInfo.node id level total_count children)
              = 1 + sizeOf id + sizeOf level + sizeOf total_count + sizeOf children := by
            simp
          omega
        rw [renderStacks, hasPrunedBelow]
        by_cases h : y < yMax ∧ 0 < ⌊xB⌋₊
        · rw [if_pos h, if_pos h]
          exact ih.2 lo zs xB total_count (zoomedChild zs children) children x 0
            (y + if lo ≤ level then 1 else 0) yMax hlt
        · rw [if_neg h, if_neg h]
          exact decide_eq_true_iff
    · intro lo zs xB pt zc children x xo y yMax hsz
      cases children with
      | nil =>
        rw [renderChildren, hasPrunedBelowChildren]
        simp
      | cons c rest =>
        have hszc : sizeOf c < n ∧ sizeOf rest < n := by
          have hspec : sizeOf (c :: rest) = 1 + sizeOf c + sizeOf rest := by
            simp
          omega
        rw [renderChildren, hasPrunedBelowChildren]
        show ((renderStacks lo zs c (x + xo) y (childXBudget zc xB pt c) yMax).2
            || (renderChildren lo zs xB pt zc rest x
                (xo + ⌊childXBudget zc xB pt c⌋₊) y yMax).2) = true ↔ _
        rw [Bool.or_eq_true]
        exact or_congr
          (ih.1 lo zs c (x + xo) y (childXBudget zc xB pt c) yMax hszc.1)
          (ih.2 lo zs xB pt zc rest x (xo + ⌊childXBudget zc xB pt c⌋₊) y yMax hszc.2)

/-- C7: a call whose visibility gate fails emits nothing (children are not
visited) and returns `true` exactly when the row is at or below the bottom
and the floored width is positive; a drawn node returns the disjunction of
its children's results, folded with `||` over the child list; hence the
flag is `true` exactly when some pruned node with positive floored width
lies at or below the bottom edge. -/
theorem claim_C7_continuation_flag (level_offset : Nat) (zoom_state : Option ZoomState)
    (id level total_count : Nat) (children : List StackInfo)
    (x y : Nat) (x_budget : ℚ) (y_max : Nat)
    (parent_total : Nat) (zoomed : Option Nat) (c : StackInfo) (rest : List StackInfo)
    (x_off : Nat) :
    (¬(y < y_max ∧ 0 < ⌊x_budget⌋₊) →
      renderStacks level_offset zoom_state (StackInfo.node id level total_count children)
          x y x_budget y_max
        = ([], decide (y_max ≤ y ∧ 0 < ⌊x_budget⌋₊)))
    ∧ ((y < y_max ∧ 0 < ⌊x_budget⌋₊) →
      (renderStacks level_offset zoom_state (StackInfo.node id level total_count children)
          x y x_budget y_max).2
        = (renderChildren level_offset zoom_state x_budget total_count
            (zoomedChild zoom_state children) children x 0
            (y + if level_offset ≤ level then 1 else 0) y_max).2)
    ∧ ((renderChildren level_offset zoom_state x_budget parent_total zoomed (c :: rest)
          x x_off y y_max).2
        = ((renderStacks level_offset zoom_state c (x + x_off) y
              (childXBudget zoomed x_budget parent_total c) y_max).2
          || (renderChildren level_offset zoom_state x_budget parent_total zoomed rest
              x (x_off + ⌊childXBudget zoomed x_budget parent_total c⌋₊) y y_max).2))
    ∧ ((renderStacks level_offset zoom_state (StackInfo.node id level total_count children)
          x y x_budget y_max).2 = true
        ↔ hasPrunedBelow level_offset zoom_state
            (StackInfo.node id level total_count children) x y x_budget y_max) := by
  refine ⟨?_, ?_, ?_, ?_⟩
  · intro h
    rw [renderStacks, if_neg h]
  · intro h
    rw [renderStacks, if_pos h]
  · rw [renderChildren]
  · exact (renderFlagAux
      (sizeOf (StackInfo.node id level total_count children) + 1)).1
      level_offset zoom_state _ x y x_budget y_max (Nat.lt_succ_self _)

/-- Witness for C7: a pruned node (row at the bottom edge, positive width)
returning `true`, and a drawn leaf returning its child loop's flag. -/
theorem claim_C7_witness :
    renderStacks 0 none (StackInfo.node 3 0 1 []) 0 2 4 2
        = ([], decide ((2:Nat) ≤ 2 ∧ 0 < ⌊(4:ℚ)⌋₊))
    ∧ (renderStacks 0 none (StackInfo.node 3 0 1 []) 0 0 4 2).2
        = (renderChildren 0 none 4 1 (zoomedChild none []) [] 0 0
            (0 + if (0:Nat) ≤ 0 then 1 else 0) 2).2 :=
  ⟨(claim_C7_continuation_flag 0 none 3 0 1 [] 0 2 4 2 1 none
      (StackInfo.node 3 0 1 []) [] 0).1
      (by simp),
   (claim_C7_continuation_flag 0 none 3 0 1 [] 0 0 4 2 1 none
      (StackInfo.node 3 0 1 []) [] 0).2.1
      (by constructor
          · decide
          · decide)⟩

end Ui

namespace Ui

theorem floor_add_floor_le (a b : ℚ) (ha : 0 ≤ a) (hb : 0 ≤ b) :
    ⌊a⌋₊ + ⌊b⌋₊ ≤ ⌊a + b⌋₊ := by
  rw [Nat.le_floor_iff (by positivity)]
  push_cast
  exact add_le_add (Nat.floor_le ha) (Nat.floor_le hb)

theorem floor_sum_le_floor (l : List ℚ) (h : ∀ q ∈ l, 0 ≤ q) :
    (l.map fun q => ⌊q⌋₊).sum ≤ ⌊l.sum⌋₊ := by
  induction l with
  | nil => simp
  | cons a t ih =>
    simp only [List.map_cons, List.sum_cons]
    have h1 := ih fun q hq => h q (List.mem_cons_of_mem _ hq)
    have h2 := floor_add_floor_le a t.sum (h a (List.mem_cons_self _ _))
      (List.sum_nonneg fun q hq => h q (List.mem_cons_of_mem _ hq))
    omega

theorem sum_ite_zoom_le (w zid : Nat) (cs : List StackInfo)
    (hnd : (cs.map StackInfo.id).Nodup) :
    (cs.map fun c => if c.id = zid then w else 0).sum ≤ w := by
  induction cs with
  | nil => simp
  | cons c rest ih =>
    simp only [List.map_cons, List.nodup_cons] at hnd
    by_cases hc : c.id = zid
    · have hrest : ∀ x ∈ rest.map (fun c => if c.id = zid then w else 0), x = 0 := by
        intro x hx
        obtain ⟨c', hc', rfl⟩ := List.mem_map.mp hx
        have hne : c'.id ≠ zid := by
          intro he
          exact hnd.1 (by
            rw [hc, ← he]
            exact List.mem_map_of_mem StackInfo.id hc')
        rw [if_neg hne]
      simp only [List.map_cons, List.sum_cons, if_pos hc, List.sum_eq_zero hrest]
      omega
    · simp only [List.map_cons, List.sum_cons, if_neg hc]
      have := ih hnd.2
      omega

/-- Counterexample to C8 as stated: under zoom the zoomed child is laid
out with the parent's entire budget, so with parent total 2, child total 1
and budget 10 the child's emitted width is 10, exceeding
`floor(10 * 1/2) = 5`. -/
theorem claim_C8_counterexample :
    (renderStacks 0 (some ⟨1, []⟩)
        (StackInfo.node 0 0 2 [StackInfo.node 1 1 1 []]) 0 0 10 10).1
      = [Row.mk 0 0 10 0, Row.mk 0 1 10 1]
    ∧ ¬((10 : Nat) ≤ ⌊(10 : ℚ) * (((StackInfo.node 1 1 1 []).total_count : ℚ)
        / (((StackInfo.node 0 0 2 [StackInfo.node 1 1 1 []]).total_count : ℚ)))⌋₊) := by
  constructor
  · have hzc : zoomedChild (some ⟨1, []⟩) [StackInfo.node 1 1 1 []] = some 1 := rfl
    have hbud : childXBudget (some 1) 10 2 (StackInfo.node 1 1 1 []) = 10 := rfl
    have hchild : renderStacks 0 (some ⟨1, []⟩) (StackInfo.node 1 1 1 []) 0 1 10 10
        = ([Row.mk 0 1 10 1], false) := by
      rw [renderStacks, renderChildren]
      norm_num [zoomedChild]
    rw [renderStacks, renderChildren, renderChildren]
    norm_num [hzc, hbud, hchild]
  · have hq : (10 : ℚ) * ((1 : ℚ) / (2 : ℚ)) = 5 := by norm_num
    show ¬((10 : Nat) ≤ ⌊(10 : ℚ) * (((1 : Nat) : ℚ) / (((2 : Nat)) : ℚ))⌋₊)
    push_cast
    rw [hq]
    norm_num

/-- C8 amended: the proportional width bound holds when no child lies on
the active zoom path — each child's floored budget is then exactly
`floor(B * total(child)/total(parent))` — and in all cases (zoomed or
not), provided the children's totals sum to at most the parent's total and
child ids are distinct, the children's floored budgets (the widths of the
rows drawn for them) sum to at most the parent's floored budget (the width
of the row drawn for it). -/
theorem claim_C8_amended_width_bounds (zoom_state : Option ZoomState) (x_budget : ℚ)
    (parent_total : Nat) (children : List StackInfo)
    (hB : 0 ≤ x_budget)
    (hsum : (children.map StackInfo.total_count).sum ≤ parent_total)
    (hnd : (children.map StackInfo.id).Nodup) :
    ((children.map fun c =>
        ⌊childXBudget (zoomedChild zoom_state children) x_budget parent_total c⌋₊).sum
      ≤ ⌊x_budget⌋₊)
    ∧ (zoomedChild zoom_state children = none →
      ∀ c ∈ children,
        ⌊childXBudget (zoomedChild zoom_state children) x_budget parent_total c⌋₊
          ≤ ⌊x_budget * ((c.total_count : ℚ) / (parent_total : ℚ))⌋₊) := by
  constructor
  · cases hz : zoomedChild zoom_state children with
    | some zid =>
      have hfun : (fun c => ⌊childXBudget (some zid) x_budget parent_total c⌋₊)
          = fun c : StackInfo => if c.id = zid then ⌊x_budget⌋₊ else 0 := by
        funext c
        show ⌊if c.id = zid then x_budget else 0⌋₊ = _
        split
        · rfl
        · simp
      rw [hfun]
      exact sum_ite_zoom_le ⌊x_budget⌋₊ zid children hnd
    | none =>
      have hfun : (fun c => ⌊childXBudget none x_budget parent_total c⌋₊)
          = (fun q => ⌊q⌋₊) ∘ (fun c : StackInfo =>
              x_budget * ((c.total_count : ℚ) / (parent_total : ℚ))) := rfl
      rw [hfun, ← List.map_map]
      have hnn : ∀ q ∈ children.map (fun c : StackInfo =>
          x_budget * ((c.total_count : ℚ) / (parent_total : ℚ))), 0 ≤ q := by
        intro q hq
        obtain ⟨c, _, rfl⟩ := List.mem_map.mp hq
        positivity
      refine (floor_sum_le_floor _ hnn).trans (Nat.floor_le_floor ?_)
      rcases Nat.eq_zero_or_pos parent_total with hpt | hpt
      · have hall : ∀ x ∈ children.map (fun c : StackInfo =>
            x_budget * ((c.total_count : ℚ) / (parent_total : ℚ))), x = 0 := by
          intro x hx
          obtain ⟨c, _, rfl⟩ := List.mem_map.mp hx
          rw [hpt]
          norm_num
        rw [List.sum_eq_zero hall]
        exact hB
      · have hstep : (children.map (fun c : StackInfo =>
            x_budget * ((c.total_count : ℚ) / (parent_total : ℚ)))).sum
            = (x_budget / (parent_total : ℚ))
              * (children.map (fun c : StackInfo => (c.total_count : ℚ))).sum := by
          rw [← List.sum_map_mul_left]
          congr 1
          refine List.map_congr_left fun c _ => ?_
          rw [div_mul_eq_mul_div, mul_div_assoc]
        rw [hstep]
        have hcast : (children.map (fun c : StackInfo => (c.total_count : ℚ))).sum
            = (((children.map StackInfo.total_count).sum : Nat) : ℚ) := by
          rw [Nat.cast_list_sum, List.map_map]
          rfl
        rw [hcast]
        have hle : (((children.map StackInfo.total_count).sum : Nat) : ℚ)
            ≤ (parent_total : ℚ) := by
          exact_mod_cast hsum
        calc (x_budget / (parent_total : ℚ))
              * (((children.map StackInfo.total_count).sum : Nat) : ℚ)
            ≤ (x_budget / (parent_total : ℚ)) * (parent_total : ℚ) := by
              apply mul_le_mul_of_nonneg_left hle
              positivity
          _ = x_budget := by
              rw [div_mul_cancel₀]
              exact_mod_cast Nat.pos_iff_ne_zero.mp hpt
  · intro hz c _
    rw [hz]
    exact le_refl _

/-- Witness for the amended C8 at a concrete no-zoom layout: budgets
`7*(2/3)` and `7*(1/3)` floor to 4 and 2, summing to at most `⌊7⌋₊`. -/
theorem claim_C8_amended_witness :
    ((0 : ℚ) ≤ 7
      ∧ (([StackInfo.node 1 1 2 [], StackInfo.node 2 1 1 []].map
          StackInfo.total_count).sum ≤ 3)
      ∧ ([StackInfo.node 1 1 2 [], StackInfo.node 2 1 1 []].map StackInfo.id).Nodup)
    ∧ (([StackInfo.node 1 1 2 [], StackInfo.node 2 1 1 []].map fun c =>
        ⌊childXBudget
          (zoomedChild none [StackInfo.node 1 1 2 [], StackInfo.node 2 1 1 []])
          7 3 c⌋₊).sum
      ≤ ⌊(7 : ℚ)⌋₊) :=
  ⟨⟨by norm_num, by decide, by decide⟩,
   (claim_C8_amended_width_bounds none 7 3
      [StackInfo.node 1 1 2 [], StackInfo.node 2 1 1 []]
      (by norm_num) (by decide) (by decide)).1⟩

end Ui
